import Mathlib

set_option linter.unusedVariables false

/-!
Shallow embedding of the FlightDataAnalyzer modules
analysis/derived_parameters.py and
analysis_engine/api_handler_analysis_engine.py.

Sample arrays are modelled as lists of rationals together with a per-sample
validity mask, mirroring numpy masked arrays: the mask value true marks an
invalid sample whose underlying data entry is a sentinel, not real data.

The helpers of analysis.library (first_order_washout, first_order_lag,
rate_of_change, repair_mask) and the numeric constants of settings
(RATE_OF_CLIMB_LAG_TC, AZ_WASHOUT_TC, GRAVITY, KTS_TO_FPS) are imported by
derived_parameters.py but are not part of the embedded sources, so the
derivations below take them as explicit function and value arguments and the
theorems quantify over them.
-/

namespace FlightData

/-- A numpy masked array: the raw data buffer plus the per-sample mask
(true means the sample is invalid). -/
structure MaskedArr where
  data : List ℚ
  mask : List Bool
deriving DecidableEq

/-- A parameter node value as passed to a derive method: its masked sample
array plus its sample rate in Hz. -/
structure Param where
  array : MaskedArr
  hz : ℚ
deriving DecidableEq

/-- Elementwise combination of two masked arrays with numpy binary ufunc
semantics: data combined pointwise, masks or-ed pointwise. -/
def maskedBin (f : ℚ → ℚ → ℚ) (a b : MaskedArr) : MaskedArr :=
  ⟨List.zipWith f a.data b.data, List.zipWith (fun x y => x || y) a.mask b.mask⟩

/-- Elementwise map over the data of a masked array, the mask unchanged
(numpy scalar broadcast operations such as multiplying by a constant). -/
def maskedMap (f : ℚ → ℚ) (a : MaskedArr) : MaskedArr :=
  ⟨a.data.map f, a.mask⟩

/-- The per-sample changeover ratio of RateOfClimb.derive, line 382:
np.maximum(np.minimum((x - 50.0)/50.0, 1), 0). -/
def std_rad_ratio (x : ℚ) : ℚ :=
  max (min ((x - 50) / 50) 1) 0

/-- The changeover ratio array of RateOfClimb.derive. It is computed from
the raw data buffer of the radio altitude (alt_rad.array.data), so the
result is a plain ndarray carrying no mask at all, here an all-false mask. -/
def stdRadRatioArr (altRad : MaskedArr) : MaskedArr :=
  ⟨altRad.data.map std_rad_ratio, List.replicate altRad.data.length false⟩

/-- The blended altitude rate of RateOfClimb.derive, lines 385 to 388:
roc_alt_std * std_rad_ratio + roc_alt_rad * (1.0 - std_rad_ratio),
followed by the division by RATE_OF_CLIMB_LAG_TC that removes the washout
gain. -/
def rocAltitudeOf (tc : ℚ) (rocAltStd rocAltRad : MaskedArr) (altRad : MaskedArr) :
    MaskedArr :=
  let ratio := stdRadRatioArr altRad
  maskedMap (fun x => x / tc)
    (maskedBin (fun x y => x + y)
      (maskedBin (fun x y => x * y) rocAltStd ratio)
      (maskedBin (fun x y => x * y) rocAltRad (maskedMap (fun r => 1 - r) ratio)))

/-- RateOfClimb.derive. The library filters and rate_of_change are passed as
explicit arguments; tcROC and tcAZ stand for the settings constants
RATE_OF_CLIMB_LAG_TC and AZ_WASHOUT_TC, and g for GRAVITY. The primary
branch is taken exactly when both the vertical acceleration and the radio
altitude parameters are present. -/
def rateOfClimbDerive
    (washout : MaskedArr → ℚ → ℚ → MaskedArr)
    (washoutInit : MaskedArr → ℚ → ℚ → ℚ → MaskedArr)
    (lag : MaskedArr → ℚ → ℚ → ℚ → MaskedArr)
    (roc : Param → ℕ → MaskedArr)
    (tcROC tcAZ g : ℚ)
    (az : Option Param) (alt_std : Param) (alt_rad : Option Param) : MaskedArr :=
  match az, alt_rad with
  | some azP, some radP =>
      let roc_alt_std := washout alt_std.array tcROC azP.hz
      let roc_alt_rad := washout radP.array tcROC azP.hz
      let roc_altitude := rocAltitudeOf tcROC roc_alt_std roc_alt_rad radP.array
      let az_washout := washoutInit azP.array tcAZ azP.hz (azP.array.data.getD 0 0)
      let inertial_roc := lag az_washout tcROC azP.hz (g * tcROC)
      maskedMap (fun x => x * 60) (maskedBin (fun x y => x + y) roc_altitude inertial_roc)
  | _, _ =>
      maskedMap (fun x => x * 60) (roc alt_std 2)

/-- RateOfClimb.can_operate, lines 357 to 365: only Altitude STD is
required. -/
def rateOfClimbCanOperate (available : List String) : Bool :=
  if "Altitude STD" ∈ available then true else false

/-- AccelerationForwardsForFlightPhases.can_operate, lines 63 to 70. -/
def accFwdCanOperate (available : List String) : Bool :=
  if "Airspeed" ∈ available then true
  else if "Acceleration Longitudinal" ∈ available then true
  else false

/-- AccelerationForwardsForFlightPhases.derive, lines 73 to 85. The
repair_mask and rate_of_change library helpers are explicit arguments;
kts_to_fps and gravity stand for the settings constants KTS_TO_FPS and
GRAVITY. -/
def accFwdDerive
    (repair_mask : MaskedArr → MaskedArr)
    (roc : MaskedArr → ℕ → MaskedArr)
    (kts_to_fps gravity : ℚ)
    (acc_long : Option MaskedArr) (airspeed : MaskedArr) : MaskedArr :=
  match acc_long with
  | some a => repair_mask a
  | none => maskedMap (fun x => x * kts_to_fps / gravity) (roc (repair_mask airspeed) 1)

/-! Span processing for AltitudeAALForFlightPhases and ClimbForFlightPhases.
A flight phase span is a half-open index range over the reference timeline.
Both derivations initialise the output to zeros over the whole record and
then write each span slice; numpy raises IndexError on a scalar read past
the last index and ValueError on the argmax of an empty slice, so the
embeddings return none exactly where the python derivation raises. -/

/-- A half-open flight phase span: start and exclusive stop index. -/
abbrev Span := ℕ × ℕ

/-- Index membership in a half-open span. -/
def inSpan (s : Span) (i : ℕ) : Prop := s.1 ≤ i ∧ i < s.2

instance (s : Span) (i : ℕ) : Decidable (inSpan s i) := by
  unfold inSpan
  infer_instance

/-- numpy basic slice alt[start:stop] with nonnegative bounds: clamps at
the array length and is empty when start is at or past stop. -/
def spanSlice (alt : List ℚ) (s : Span) : List ℚ :=
  (alt.drop s.1).take (s.2 - s.1)

/-- Maximum value of a list of samples (the value np.ma.argmax locates). -/
def argmaxVal : List ℚ → ℚ
  | [] => 0
  | [a] => a
  | a :: b :: rest => max a (argmaxVal (b :: rest))

/-- First index attaining the maximum, as np.ma.argmax returns it. -/
def argmaxIdx : List ℚ → ℕ
  | [] => 0
  | [_] => 0
  | a :: b :: rest => if a < argmaxVal (b :: rest) then argmaxIdx (b :: rest) + 1 else 0

/-- Peak sample index of a span, relative to the span start: line 139,
peak = np.ma.argmax(alt_std.array[speedy.slice]). -/
def spanPeak (alt : List ℚ) (s : Span) : ℕ := argmaxIdx (spanSlice alt s)

/-- One loop iteration of AltitudeAALForFlightPhases.derive, lines 136 to
141, acting on the output array viewed as a function of the index. The loop
raises where numpy does: the argmax of an empty span slice, and the scalar
read alt_std.array[end] with end at or past the array length. Before the
peak the span start altitude is subtracted, from the peak on the altitude at
the exclusive stop index. -/
def aalSpanUpdate (alt : List ℚ) (acc : ℕ → ℚ) (s : Span) : Option (ℕ → ℚ) :=
  if (spanSlice alt s).isEmpty then none
  else
    match alt[s.2]? with
    | none => none
    | some ae =>
        some (fun i =>
          if s.1 ≤ i ∧ i < s.1 + argmaxIdx (spanSlice alt s) then
            alt.getD i 0 - alt.getD s.1 0
          else if s.1 + argmaxIdx (spanSlice alt s) ≤ i ∧ i < s.2 then
            alt.getD i 0 - ae
          else acc i)

/-- AltitudeAALForFlightPhases.derive, lines 128 to 141. The output starts
as zeros over the whole record; the repair_mask call on line 134 discards
its result, so the altitude samples reaching the loop are the input data.
The spans are processed in order and the output array is materialised at
the end. -/
def aalDerive (alt : List ℚ) (spans : List Span) : Option (List ℚ) :=
  (spans.foldlM (aalSpanUpdate alt) (fun _ => 0)).map
    (fun f => (List.range alt.length).map f)

/-- The value written into a span by AltitudeAALForFlightPhases.derive. -/
def aalVal (alt : List ℚ) (s : Span) (i : ℕ) : ℚ :=
  if i < s.1 + spanPeak alt s then alt.getD i 0 - alt.getD s.1 0
  else alt.getD i 0 - alt.getD s.2 0

/-- The loop body of ClimbForFlightPhases.derive from the second sample of
a span on, lines 207 to 213: on a descending step the tracked floor is
reset to the current altitude and the output is 0, otherwise the output is
the altitude minus the tracked floor. The first argument walks the
remaining samples, the second is the previous sample, the third the
tracked floor. -/
def climbVals : List ℚ → ℚ → ℚ → List ℚ
  | [], _, _ => []
  | a :: rest, prev, curr =>
      if a < prev then 0 :: climbVals rest a a
      else (a - curr) :: climbVals rest a curr

/-- Full span output of ClimbForFlightPhases.derive: first sample 0, lines
204 to 206, then the tracking loop with the floor started at the first
altitude of the span. -/
def climbOut : List ℚ → List ℚ
  | [] => []
  | a :: rest => 0 :: climbVals rest a a

/-- The tracked floor as a list, mirroring climbVals step for step. -/
def floorVals : List ℚ → ℚ → ℚ → List ℚ
  | [], _, _ => []
  | a :: rest, prev, curr =>
      if a < prev then a :: floorVals rest a a
      else curr :: floorVals rest a curr

/-- The tracked floor over a whole span slice, starting at the first
altitude. -/
def fullFloors : List ℚ → List ℚ
  | [] => []
  | a :: rest => a :: floorVals rest a a

/-- The running floor of the climb helper as a function of the sample index
within the span slice: reset to the current altitude exactly on a
decreasing step, kept unchanged otherwise. -/
def floorAt (sl : List ℚ) : ℕ → ℚ
  | 0 => sl.getD 0 0
  | k + 1 => if sl.getD (k + 1) 0 < sl.getD k 0 then sl.getD (k + 1) 0 else floorAt sl k

/-- One loop iteration of ClimbForFlightPhases.derive over a span, lines
202 to 213. numpy raises when the span slice is empty (the first element
read on line 205) or when the loop range stop - start runs past the
clamped slice (stop beyond the array length), so exactly the spans with
start < stop and stop at most the array length succeed. -/
def climbSpanUpdate (alt : List ℚ) (acc : ℕ → ℚ) (s : Span) : Option (ℕ → ℚ) :=
  if s.1 < s.2 ∧ s.2 ≤ alt.length then
    some (fun i =>
      if s.1 ≤ i ∧ i < s.2 then (climbOut (spanSlice alt s)).getD (i - s.1) 0
      else acc i)
  else none

/-- ClimbForFlightPhases.derive, lines 198 to 213: zeros over the whole
record, then each Fast span overwritten with the floor tracking loop. -/
def climbDerive (alt : List ℚ) (spans : List Span) : Option (List ℚ) :=
  (spans.foldlM (climbSpanUpdate alt) (fun _ => 0)).map
    (fun f => (List.range alt.length).map f)

/-- The value written into a span by ClimbForFlightPhases.derive. -/
def climbVal (alt : List ℚ) (s : Span) (i : ℕ) : ℚ :=
  (climbOut (spanSlice alt s)).getD (i - s.1) 0

/-! API handlers from analysis_engine/api_handler_analysis_engine.py. -/

/-- The typed error conditions raised by the analysis engine API handlers. -/
inductive ApiError where
  | NotFoundError (msg : String)
  | InvalidAPIInputError (msg : String)
deriving DecidableEq

/-- Result record of an airport or runway lookup; the payload is opaque to
this module. -/
structure LookupResult where
  payload : String
deriving DecidableEq

/-- AnalysisEngineAPIHandlerDummy.get_airport, lines 101 to 104. -/
def dummyGetAirport (code : String) : Except ApiError LookupResult :=
  Except.error (ApiError.NotFoundError "Dummy API handler always returns nothing...")

/-- AnalysisEngineAPIHandlerDummy.get_nearest_airport, lines 106 to 109. -/
def dummyGetNearestAirport (latitude longitude : ℚ) : Except ApiError LookupResult :=
  Except.error (ApiError.NotFoundError "Dummy API handler always returns nothing...")

/-- AnalysisEngineAPIHandlerDummy.get_nearest_runway, lines 111 to 114. -/
def dummyGetNearestRunway (airport : String) (heading : ℤ)
    (latitude longitude ilsfreq : Option ℚ) (hint : Option String) :
    Except ApiError LookupResult :=
  Except.error (ApiError.NotFoundError "Dummy API handler always returns nothing...")

/-- Python truthiness of an optional float argument: None and 0.0 are falsy,
every other float is truthy. -/
def truthy : Option ℚ → Bool
  | none => false
  | some x => decide (x ≠ 0)

/-- Python int() truncation toward zero. -/
def pyInt (q : ℚ) : ℤ :=
  if 0 ≤ q then q.floor else q.ceil

/-- The membership test on the hint argument, mirroring the source line
checking hint against the list of takeoff, landing and approach (the value
None is not a member). -/
def hintOk : Option String → Bool
  | none => false
  | some h => h == "takeoff" || h == "landing" || h == "approach"

/-- Query parameters built by AnalysisEngineAPIHandlerHTTP.get_nearest_runway,
lines 195 to 203, before urlencode: heading always; ll only when latitude and
longitude are both truthy; ilsfreq converted to KHz by int truncation when
truthy; hint when it is one of takeoff, landing, approach. The float
formatting of the coordinate pair is performed by the abstract fmtCoords
argument, since string formatting of floats is immaterial to the claims. -/
def nearestRunwayParams (fmtCoords : ℚ → ℚ → String)
    (heading : ℤ) (latitude longitude ilsfreq : Option ℚ) (hint : Option String) :
    List (String × String) :=
  let ps := [("heading", toString heading)]
  let ps := if truthy latitude && truthy longitude then
      ps ++ [("ll", fmtCoords (latitude.getD 0) (longitude.getD 0))]
    else ps
  let ps := if truthy ilsfreq then
      ps ++ [("ilsfreq", toString (pyInt (ilsfreq.getD 0 * 1000)))]
    else ps
  if hintOk hint then ps ++ [("hint", hint.getD "")] else ps

end FlightData

namespace FlightData

/-! Helper lemmas about list indexing, shared across the claims. -/

theorem getD_map_of_lt (f : ℚ → ℚ) (l : List ℚ) (i : ℕ) (h : i < l.length) :
    (l.map f).getD i 0 = f (l.getD i 0) := by
  rw [List.getD_eq_getElem _ _ (by simpa using h), List.getD_eq_getElem _ _ h,
    List.getElem_map]

theorem getD_zipWith_of_lt (f : ℚ → ℚ → ℚ) (a b : List ℚ) (i : ℕ)
    (ha : i < a.length) (hb : i < b.length) :
    (List.zipWith f a b).getD i 0 = f (a.getD i 0) (b.getD i 0) := by
  rw [List.getD_eq_getElem _ _ (by simp [List.length_zipWith]; omega),
    List.getD_eq_getElem _ _ ha, List.getD_eq_getElem _ _ hb,
    List.getElem_zipWith]

theorem getD_range_map (f : ℕ → ℚ) (n i : ℕ) (h : i < n) :
    ((List.range n).map f).getD i 0 = f i := by
  rw [List.getD_eq_getElem _ _ (by simpa using h)]
  simp

theorem spanSlice_length (alt : List ℚ) (s : Span) :
    (spanSlice alt s).length = min (s.2 - s.1) (alt.length - s.1) := by
  simp [spanSlice]

theorem getD_spanSlice (alt : List ℚ) (s : Span) (k : ℕ)
    (hk : k < s.2 - s.1) (hlen : s.1 + k < alt.length) :
    (spanSlice alt s).getD k 0 = alt.getD (s.1 + k) 0 := by
  rw [List.getD_eq_getElem _ _ (by simp [spanSlice]; omega),
    List.getD_eq_getElem _ _ hlen]
  simp [spanSlice]

theorem argmaxVal_cons_cons (a b : ℚ) (rest : List ℚ) :
    argmaxVal (a :: b :: rest) = max a (argmaxVal (b :: rest)) := rfl

theorem argmaxIdx_cons_cons (a b : ℚ) (rest : List ℚ) :
    argmaxIdx (a :: b :: rest)
      = if a < argmaxVal (b :: rest) then argmaxIdx (b :: rest) + 1 else 0 := rfl

theorem argmaxIdx_lt_length (l : List ℚ) (h : l ≠ []) : argmaxIdx l < l.length := by
  induction l with
  | nil => simp at h
  | cons a rest ih =>
    cases rest with
    | nil => simp [argmaxIdx]
    | cons b t =>
      rw [argmaxIdx_cons_cons]
      by_cases hc : a < argmaxVal (b :: t)
      · rw [if_pos hc]
        have hlt := ih (by simp)
        simp only [List.length_cons] at hlt ⊢
        omega
      · rw [if_neg hc]
        simp

theorem getD_le_argmaxVal (l : List ℚ) (j : ℕ) (hj : j < l.length) :
    l.getD j 0 ≤ argmaxVal l := by
  induction l generalizing j with
  | nil => simp at hj
  | cons a rest ih =>
    cases rest with
    | nil =>
      cases j with
      | zero => simp [argmaxVal]
      | succ j' => simp at hj
    | cons b t =>
      rw [argmaxVal_cons_cons]
      cases j with
      | zero =>
        rw [List.getD_cons_zero]
        exact le_max_left _ _
      | succ j' =>
        rw [List.getD_cons_succ]
        exact le_trans (ih j' (by simpa using hj)) (le_max_right _ _)

theorem getD_argmaxIdx (l : List ℚ) (h : l ≠ []) :
    l.getD (argmaxIdx l) 0 = argmaxVal l := by
  induction l with
  | nil => simp at h
  | cons a rest ih =>
    cases rest with
    | nil => simp [argmaxIdx, argmaxVal]
    | cons b t =>
      rw [argmaxIdx_cons_cons, argmaxVal_cons_cons]
      by_cases hc : a < argmaxVal (b :: t)
      · rw [if_pos hc, List.getD_cons_succ, ih (by simp)]
        exact (max_eq_right (le_of_lt hc)).symm
      · rw [if_neg hc, List.getD_cons_zero]
        exact (max_eq_left (le_of_not_lt hc)).symm

theorem getD_lt_of_lt_argmaxIdx (l : List ℚ) (j : ℕ) (hj : j < argmaxIdx l) :
    l.getD j 0 < l.getD (argmaxIdx l) 0 := by
  induction l generalizing j with
  | nil => simp [argmaxIdx] at hj
  | cons a rest ih =>
    cases rest with
    | nil => simp [argmaxIdx] at hj
    | cons b t =>
      rw [argmaxIdx_cons_cons] at hj ⊢
      by_cases hc : a < argmaxVal (b :: t)
      · rw [if_pos hc] at hj ⊢
        rw [List.getD_cons_succ, getD_argmaxIdx _ (by simp)]
        cases j with
        | zero => simpa using hc
        | succ j' =>
          rw [List.getD_cons_succ]
          have hlt := ih j' (by omega)
          rwa [getD_argmaxIdx _ (by simp)] at hlt
      · rw [if_neg hc] at hj
        omega

theorem foldlM_spans_some
    (upd : (ℕ → ℚ) → Span → Option (ℕ → ℚ)) (val : Span → ℕ → ℚ) :
    ∀ (spans : List Span),
      (∀ s ∈ spans, ∀ acc, ∃ g, upd acc s = some g ∧
          ∀ i, g i = if inSpan s i then val s i else acc i) →
      ∀ acc, ∃ f, spans.foldlM upd acc = some f
        ∧ (∀ i, (∀ s ∈ spans, ¬ inSpan s i) → f i = acc i)
        ∧ (∀ s ∈ spans, ∀ i, inSpan s i →
            (∀ t ∈ spans, inSpan t i → t = s) → f i = val s i) := by
  intro spans
  induction spans with
  | nil =>
    intro _ acc
    exact ⟨acc, rfl, fun i _ => rfl, fun s hs => (List.not_mem_nil s hs).elim⟩
  | cons s0 rest ih =>
    intro hupd acc
    obtain ⟨g, hg, hgi⟩ := hupd s0 (List.mem_cons_self s0 rest) acc
    obtain ⟨f, hf, hout, hin⟩ :=
      ih (fun s hs => hupd s (List.mem_cons_of_mem s0 hs)) g
    refine ⟨f, ?_, ?_, ?_⟩
    · rw [List.foldlM_cons, hg]
      simpa using hf
    · intro i hi
      rw [hout i (fun s hs => hi s (List.mem_cons_of_mem s0 hs)), hgi i,
        if_neg (hi s0 (List.mem_cons_self s0 rest))]
    · intro s hs i hiS huniq
      by_cases hmem : s ∈ rest
      · exact hin s hmem i hiS
          (fun t ht hti => huniq t (List.mem_cons_of_mem s0 ht) hti)
      · have hs0 : s = s0 := by
          rcases List.mem_cons.mp hs with h | h
          · exact h
          · exact absurd h hmem
        subst hs0
        have hrest_not : ∀ t ∈ rest, ¬ inSpan t i := by
          intro t ht hti
          exact hmem (huniq t (List.mem_cons_of_mem s ht) hti ▸ ht)
        rw [hout i hrest_not, hgi i, if_pos hiS]

theorem foldlM_spans_none (upd : (ℕ → ℚ) → Span → Option (ℕ → ℚ)) :
    ∀ (spans : List Span) (s : Span), s ∈ spans →
      (∀ acc, upd acc s = none) →
      ∀ acc, spans.foldlM upd acc = none := by
  intro spans
  induction spans with
  | nil =>
    intro s hs
    exact absurd hs (List.not_mem_nil s)
  | cons t rest ih =>
    intro s hs hnone acc
    rw [List.foldlM_cons]
    rcases List.mem_cons.mp hs with h | h
    · subst h
      rw [hnone acc]
      rfl
    · cases hupd : upd acc t with
      | none => rfl
      | some g => simpa using ih s h hnone g

theorem floorVals_cons (a : ℚ) (rest : List ℚ) (prev curr : ℚ) :
    floorVals (a :: rest) prev curr
      = (if a < prev then a else curr)
        :: floorVals rest a (if a < prev then a else curr) := by
  by_cases hc : a < prev <;> simp [floorVals, hc]

theorem climbVals_eq_zipWith (l : List ℚ) (prev curr : ℚ) :
    climbVals l prev curr
      = List.zipWith (fun a c => a - c) l (floorVals l prev curr) := by
  induction l generalizing prev curr with
  | nil => rfl
  | cons a rest ih =>
    by_cases hc : a < prev
    · simp [climbVals, floorVals, hc, ih, sub_self]
    · simp [climbVals, floorVals, hc, ih]

theorem floorVals_length (l : List ℚ) (prev curr : ℚ) :
    (floorVals l prev curr).length = l.length := by
  induction l generalizing prev curr with
  | nil => rfl
  | cons a rest ih =>
    by_cases hc : a < prev <;> simp [floorVals, hc, ih]

theorem fullFloors_cons (a : ℚ) (rest : List ℚ) :
    fullFloors (a :: rest) = a :: floorVals rest a a := rfl

theorem fullFloors_length (sl : List ℚ) : (fullFloors sl).length = sl.length := by
  cases sl with
  | nil => rfl
  | cons a rest => simp [fullFloors_cons, floorVals_length]

theorem climbOut_eq_zipWith (sl : List ℚ) :
    climbOut sl = List.zipWith (fun a c => a - c) sl (fullFloors sl) := by
  cases sl with
  | nil => rfl
  | cons a rest => simp [climbOut, fullFloors_cons, climbVals_eq_zipWith, sub_self]

theorem climbOut_length (sl : List ℚ) : (climbOut sl).length = sl.length := by
  rw [climbOut_eq_zipWith]
  simp [List.length_zipWith, fullFloors_length]

theorem floorVals_getD_zero (l : List ℚ) (prev curr : ℚ) (h : l ≠ []) :
    (floorVals l prev curr).getD 0 0
      = if l.getD 0 0 < prev then l.getD 0 0 else curr := by
  cases l with
  | nil => simp at h
  | cons a rest => by_cases hc : a < prev <;> simp [floorVals, hc]

theorem floorVals_getD_succ (l : List ℚ) (prev curr : ℚ) (k : ℕ)
    (h : k + 1 < l.length) :
    (floorVals l prev curr).getD (k + 1) 0
      = if l.getD (k + 1) 0 < l.getD k 0 then l.getD (k + 1) 0
        else (floorVals l prev curr).getD k 0 := by
  induction l generalizing prev curr k with
  | nil => simp at h
  | cons a rest ih =>
    rw [floorVals_cons]
    cases k with
    | zero =>
      have hrest : rest ≠ [] := by
        cases rest
        · simp at h
        · simp
      rw [List.getD_cons_succ, List.getD_cons_succ, List.getD_cons_zero,
        List.getD_cons_zero, floorVals_getD_zero rest a _ hrest]
    | succ k' =>
      rw [List.getD_cons_succ, List.getD_cons_succ, List.getD_cons_succ,
        List.getD_cons_succ, ih a _ k' (by simpa using h)]

theorem fullFloors_getD_succ (sl : List ℚ) (k : ℕ) (h : k + 1 < sl.length) :
    (fullFloors sl).getD (k + 1) 0
      = if sl.getD (k + 1) 0 < sl.getD k 0 then sl.getD (k + 1) 0
        else (fullFloors sl).getD k 0 := by
  cases sl with
  | nil => simp at h
  | cons a rest =>
    rw [fullFloors_cons]
    cases k with
    | zero =>
      have hrest : rest ≠ [] := by
        cases rest
        · simp at h
        · simp
      rw [List.getD_cons_succ, List.getD_cons_succ, List.getD_cons_zero,
        List.getD_cons_zero, floorVals_getD_zero rest a a hrest]
    | succ k' =>
      rw [List.getD_cons_succ, List.getD_cons_succ, List.getD_cons_succ,
        List.getD_cons_succ, floorVals_getD_succ rest a a k' (by simpa using h)]

theorem fullFloors_getD_eq_floorAt (sl : List ℚ) (k : ℕ) (h : k < sl.length) :
    (fullFloors sl).getD k 0 = floorAt sl k := by
  induction k with
  | zero =>
    cases sl with
    | nil => simp at h
    | cons a rest => simp [fullFloors_cons, floorAt]
  | succ k' ih =>
    rw [fullFloors_getD_succ sl k' h]
    simp only [floorAt]
    rw [ih (by omega)]

theorem climbOut_getD (sl : List ℚ) (k : ℕ) (h : k < sl.length) :
    (climbOut sl).getD k 0 = sl.getD k 0 - floorAt sl k := by
  rw [climbOut_eq_zipWith,
    getD_zipWith_of_lt _ _ _ _ h (by rw [fullFloors_length]; exact h),
    fullFloors_getD_eq_floorAt sl k h]

theorem aalSpanUpdate_valid (alt : List ℚ) (s : Span)
    (h1 : s.1 < s.2) (h2 : s.2 < alt.length) (acc : ℕ → ℚ) :
    ∃ g, aalSpanUpdate alt acc s = some g ∧
      ∀ i, g i = if inSpan s i then aalVal alt s i else acc i := by
  have hlen : (spanSlice alt s).length = s.2 - s.1 := by
    rw [spanSlice_length]
    omega
  have hne : ¬ ((spanSlice alt s).isEmpty = true) := by
    rw [List.isEmpty_iff_length_eq_zero, hlen]
    omega
  have hpeak : argmaxIdx (spanSlice alt s) < s.2 - s.1 := by
    rw [← hlen]
    refine argmaxIdx_lt_length _ ?_
    intro hnil
    exact hne (by rw [hnil]; rfl)
  have hgetE : alt[s.2]? = some (alt.getD s.2 0) := by
    rw [List.getElem?_eq_getElem h2, List.getD_eq_getElem _ _ h2]
  refine ⟨fun i =>
      if s.1 ≤ i ∧ i < s.1 + argmaxIdx (spanSlice alt s) then
        alt.getD i 0 - alt.getD s.1 0
      else if s.1 + argmaxIdx (spanSlice alt s) ≤ i ∧ i < s.2 then
        alt.getD i 0 - alt.getD s.2 0
      else acc i, ?_, ?_⟩
  · unfold aalSpanUpdate
    rw [if_neg hne, hgetE]
  · intro i
    show (if s.1 ≤ i ∧ i < s.1 + argmaxIdx (spanSlice alt s) then
        alt.getD i 0 - alt.getD s.1 0
      else if s.1 + argmaxIdx (spanSlice alt s) ≤ i ∧ i < s.2 then
        alt.getD i 0 - alt.getD s.2 0
      else acc i) = _
    unfold aalVal inSpan spanPeak
    by_cases c1 : s.1 ≤ i ∧ i < s.1 + argmaxIdx (spanSlice alt s)
    · rw [if_pos c1, if_pos (show s.1 ≤ i ∧ i < s.2 by omega), if_pos (by omega)]
    · by_cases c2 : s.1 + argmaxIdx (spanSlice alt s) ≤ i ∧ i < s.2
      · rw [if_neg c1, if_pos c2, if_pos (show s.1 ≤ i ∧ i < s.2 by omega),
          if_neg (by omega)]
      · rw [if_neg c1, if_neg c2, if_neg (show ¬ (s.1 ≤ i ∧ i < s.2) by omega)]

theorem climbSpanUpdate_valid (alt : List ℚ) (s : Span)
    (h1 : s.1 < s.2) (h2 : s.2 ≤ alt.length) (acc : ℕ → ℚ) :
    ∃ g, climbSpanUpdate alt acc s = some g ∧
      ∀ i, g i = if inSpan s i then climbVal alt s i else acc i := by
  refine ⟨fun i =>
      if s.1 ≤ i ∧ i < s.2 then (climbOut (spanSlice alt s)).getD (i - s.1) 0
      else acc i, ?_, ?_⟩
  · unfold climbSpanUpdate
    rw [if_pos ⟨h1, h2⟩]
  · intro i
    unfold climbVal inSpan
    rfl

/-- The changeover ratio clamps to 0 for samples at or below 50 ft. -/
theorem std_rad_ratio_of_le_50 (x : ℚ) (h : x ≤ 50) : std_rad_ratio x = 0 := by
  have hdiv : (x - 50) / 50 ≤ 0 := by
    rw [div_le_iff₀ (by norm_num : (0:ℚ) < 50)]
    linarith
  unfold std_rad_ratio
  rw [min_eq_left (le_trans hdiv zero_le_one), max_eq_right hdiv]

/-- The changeover ratio clamps to 1 for samples at or above 100 ft. -/
theorem std_rad_ratio_of_ge_100 (x : ℚ) (h : 100 ≤ x) : std_rad_ratio x = 1 := by
  have hdiv : (1 : ℚ) ≤ (x - 50) / 50 := by
    rw [le_div_iff₀ (by norm_num : (0:ℚ) < 50)]
    linarith
  unfold std_rad_ratio
  rw [min_eq_right hdiv, max_eq_left zero_le_one]

/-- The changeover ratio is the unclamped linear expression between 50 ft
and 100 ft. -/
theorem std_rad_ratio_of_between (x : ℚ) (h1 : 50 ≤ x) (h2 : x ≤ 100) :
    std_rad_ratio x = (x - 50) / 50 := by
  have hlo : (0 : ℚ) ≤ (x - 50) / 50 :=
    div_nonneg (by linarith) (by norm_num)
  have hhi : (x - 50) / 50 ≤ 1 := by
    rw [div_le_one (by norm_num : (0:ℚ) < 50)]
    linarith
  unfold std_rad_ratio
  rw [min_eq_left hhi, max_eq_left hlo]

/-- Pointwise value of the blended altitude rate of RateOfClimb.derive. -/
theorem rocAltitudeOf_getD (tc : ℚ) (rocStd rocRad altRad : MaskedArr) (i : ℕ)
    (h1 : i < rocStd.data.length) (h2 : i < rocRad.data.length)
    (h3 : i < altRad.data.length) :
    (rocAltitudeOf tc rocStd rocRad altRad).data.getD i 0
      = (rocStd.data.getD i 0 * std_rad_ratio (altRad.data.getD i 0)
          + rocRad.data.getD i 0 * (1 - std_rad_ratio (altRad.data.getD i 0))) / tc := by
  unfold rocAltitudeOf stdRadRatioArr maskedMap maskedBin
  simp only
  rw [getD_map_of_lt _ _ _ (by simp [List.length_zipWith]; omega),
    getD_zipWith_of_lt _ _ _ _ (by simp [List.length_zipWith]; omega)
      (by simp [List.length_zipWith]; omega),
    getD_zipWith_of_lt _ _ _ _ h1 (by simpa using h3),
    getD_zipWith_of_lt _ _ _ _ h2 (by simpa using h3),
    getD_map_of_lt (fun r => 1 - r) _ _ (by simpa using h3),
    getD_map_of_lt std_rad_ratio _ _ h3]

/-! Claim theorems. -/

/-- Claim C6: RateOfClimb.can_operate returns true exactly when Altitude STD
is among the available input names; the other two inputs are irrelevant to
operability. -/
theorem rateOfClimb_canOperate_iff (available : List String) :
    rateOfClimbCanOperate available = true ↔ "Altitude STD" ∈ available := by
  simp [rateOfClimbCanOperate]

/-- Witness for claim C6 at a concrete available set. -/
theorem rateOfClimb_canOperate_iff_witness :
    rateOfClimbCanOperate ["Altitude STD"] = true :=
  (rateOfClimb_canOperate_iff ["Altitude STD"]).mpr (by decide)

/-- Claim C1: in the primary path of RateOfClimb.derive, for every sample
index the changeover ratio equals the clamp of (radio altitude - 50) / 50 to
the unit interval, computed from the raw radio altitude data buffer; the
blended altitude rate equals baro washout times ratio plus radio washout
times one minus ratio, divided by the washout time constant; with radio
altitude at or below 50 the blend is exactly the radio derived term, with
radio altitude at or above 100 exactly the baro derived term, and between 50
and 100 the ratio is the unclamped linear expression. -/
theorem rateOfClimb_changeover (tc : ℚ) (rocStd rocRad altRad : MaskedArr) (i : ℕ)
    (h1 : i < rocStd.data.length) (h2 : i < rocRad.data.length)
    (h3 : i < altRad.data.length) :
    ((rocAltitudeOf tc rocStd rocRad altRad).data.getD i 0
        = (rocStd.data.getD i 0 * std_rad_ratio (altRad.data.getD i 0)
            + rocRad.data.getD i 0 * (1 - std_rad_ratio (altRad.data.getD i 0))) / tc)
    ∧ (std_rad_ratio (altRad.data.getD i 0)
        = max (min ((altRad.data.getD i 0 - 50) / 50) 1) 0)
    ∧ (altRad.data.getD i 0 ≤ 50 →
        std_rad_ratio (altRad.data.getD i 0) = 0
        ∧ (rocAltitudeOf tc rocStd rocRad altRad).data.getD i 0
            = rocRad.data.getD i 0 / tc)
    ∧ (100 ≤ altRad.data.getD i 0 →
        std_rad_ratio (altRad.data.getD i 0) = 1
        ∧ (rocAltitudeOf tc rocStd rocRad altRad).data.getD i 0
            = rocStd.data.getD i 0 / tc)
    ∧ (50 ≤ altRad.data.getD i 0 → altRad.data.getD i 0 ≤ 100 →
        std_rad_ratio (altRad.data.getD i 0)
          = (altRad.data.getD i 0 - 50) / 50) := by
  have hmain := rocAltitudeOf_getD tc rocStd rocRad altRad i h1 h2 h3
  refine ⟨hmain, rfl, ?_, ?_, ?_⟩
  · intro hle
    have hz := std_rad_ratio_of_le_50 _ hle
    refine ⟨hz, ?_⟩
    rw [hmain, hz]
    ring
  · intro hge
    have ho := std_rad_ratio_of_ge_100 _ hge
    refine ⟨ho, ?_⟩
    rw [hmain, ho]
    ring
  · exact std_rad_ratio_of_between _

/-- Witness for claim C1 at a concrete sample below the 50 ft changeover. -/
theorem rateOfClimb_changeover_witness :
    ((rocAltitudeOf 3 ⟨[5], [false]⟩ ⟨[7], [false]⟩ ⟨[30], [false]⟩).data.getD 0 0
        = ((5 : ℚ) * std_rad_ratio 30 + 7 * (1 - std_rad_ratio 30)) / 3)
    ∧ std_rad_ratio 30 = 0
    ∧ (rocAltitudeOf 3 ⟨[5], [false]⟩ ⟨[7], [false]⟩ ⟨[30], [false]⟩).data.getD 0 0
        = 7 / 3 := by
  have h := rateOfClimb_changeover 3 ⟨[5], [false]⟩ ⟨[7], [false]⟩ ⟨[30], [false]⟩ 0
    (by decide) (by decide) (by decide)
  have hb := h.2.2.1 (by norm_num [List.getD])
  exact ⟨h.1, hb.1, hb.2⟩

/-- Claim C2: whenever the vertical acceleration or the radio altitude
parameter is missing, RateOfClimb.derive returns exactly the plain rate of
change of the barometric altitude over a window of 2 samples, scaled by 60
to feet per minute. -/
theorem rateOfClimb_fallback
    (washout : MaskedArr → ℚ → ℚ → MaskedArr)
    (washoutInit : MaskedArr → ℚ → ℚ → ℚ → MaskedArr)
    (lag : MaskedArr → ℚ → ℚ → ℚ → MaskedArr)
    (roc : Param → ℕ → MaskedArr)
    (tcROC tcAZ g : ℚ)
    (az : Option Param) (alt_std : Param) (alt_rad : Option Param)
    (h : az = none ∨ alt_rad = none) :
    rateOfClimbDerive washout washoutInit lag roc tcROC tcAZ g az alt_std alt_rad
      = maskedMap (fun x => x * 60) (roc alt_std 2) := by
  rcases h with h | h
  · subst h
    cases alt_rad <;> rfl
  · subst h
    cases az <;> rfl

/-- Witness for claim C2 with the vertical acceleration parameter missing. -/
theorem rateOfClimb_fallback_witness :
    rateOfClimbDerive (fun a _ _ => a) (fun a _ _ _ => a) (fun a _ _ _ => a)
      (fun p _ => p.array) 3 10 32 none ⟨⟨[1, 2], [false, false]⟩, 1⟩
      (some ⟨⟨[5], [false]⟩, 1⟩)
      = maskedMap (fun x => x * 60)
          ((fun (p : Param) (_ : ℕ) => p.array) ⟨⟨[1, 2], [false, false]⟩, 1⟩ 2) :=
  rateOfClimb_fallback (fun a _ _ => a) (fun a _ _ _ => a) (fun a _ _ _ => a)
    (fun p _ => p.array) 3 10 32 none ⟨⟨[1, 2], [false, false]⟩, 1⟩
    (some ⟨⟨[5], [false]⟩, 1⟩) (Or.inl rfl)

/-- Claim C5, evaluated at the failing input: the changeover ratio of
RateOfClimb.derive is computed from the raw data buffer of the radio
altitude. At a masked sample the output carries no mask and its value
tracks the masked sentinel value, so the mask is neither propagated nor
repaired before blending: two radio altitude arrays identical except for
the sentinel stored under the mask give different, unmasked ratios. -/
theorem stdRadRatio_uses_masked_sentinel :
    (stdRadRatioArr ⟨[75], [true]⟩).mask = [false]
    ∧ (stdRadRatioArr ⟨[75], [true]⟩).data = [1/2]
    ∧ (stdRadRatioArr ⟨[999], [true]⟩).mask = [false]
    ∧ (stdRadRatioArr ⟨[999], [true]⟩).data = [1]
    ∧ (stdRadRatioArr ⟨[75], [true]⟩).data ≠ (stdRadRatioArr ⟨[999], [true]⟩).data := by
  have h75 : std_rad_ratio 75 = 1 / 2 := by
    norm_num [std_rad_ratio, min_def, max_def]
  have h999 : std_rad_ratio 999 = 1 := std_rad_ratio_of_ge_100 999 (by norm_num)
  refine ⟨rfl, ?_, rfl, ?_, ?_⟩ <;>
    simp [stdRadRatioArr, h75, h999]

/-- Claim C7: AccelerationForwardsForFlightPhases can operate whenever
Airspeed is available, in which case a missing longitudinal acceleration
sends the derivation down the fallback branch scaling the rate of change of
the repaired airspeed by KTS_TO_FPS over GRAVITY, and it cannot operate
when neither Airspeed nor Acceleration Longitudinal is available. -/
theorem accFwd_capability (av av2 : List String)
    (hA : "Airspeed" ∈ av)
    (hn1 : "Airspeed" ∉ av2) (hn2 : "Acceleration Longitudinal" ∉ av2)
    (repair_mask : MaskedArr → MaskedArr) (roc : MaskedArr → ℕ → MaskedArr)
    (kts_to_fps gravity : ℚ) (airspeed : MaskedArr) :
    accFwdCanOperate av = true
    ∧ accFwdCanOperate av2 = false
    ∧ accFwdDerive repair_mask roc kts_to_fps gravity none airspeed
        = maskedMap (fun x => x * kts_to_fps / gravity) (roc (repair_mask airspeed) 1) :=
  ⟨by simp [accFwdCanOperate, hA], by simp [accFwdCanOperate, hn1, hn2], rfl⟩

/-- Witness for claim C7 with Airspeed alone available and an empty
available set. -/
theorem accFwd_capability_witness :
    accFwdCanOperate ["Airspeed"] = true
    ∧ accFwdCanOperate [] = false
    ∧ accFwdDerive id (fun a _ => a) 169 100 none ⟨[3], [false]⟩
        = maskedMap (fun x => x * 169 / 100)
            ((fun (a : MaskedArr) (_ : ℕ) => a) (id ⟨[3], [false]⟩) 1) :=
  accFwd_capability ["Airspeed"] [] (by decide) (by decide) (by decide)
    id (fun a _ => a) 169 100 ⟨[3], [false]⟩

/-- Claim C10: in get_nearest_runway the ll query parameter is present
exactly when both coordinates are truthy, and a latitude or longitude equal
to 0.0 makes the request identical to one where the coordinates were not
supplied at all. -/
theorem nearestRunway_ll_only_when_truthy (fmt : ℚ → ℚ → String) (heading : ℤ)
    (latitude longitude ilsfreq : Option ℚ) (hint : Option String) :
    ((nearestRunwayParams fmt heading latitude longitude ilsfreq hint).any
        (fun p => p.1 == "ll") = (truthy latitude && truthy longitude))
    ∧ ((latitude = some 0 ∨ longitude = some 0) →
        nearestRunwayParams fmt heading latitude longitude ilsfreq hint
          = nearestRunwayParams fmt heading none none ilsfreq hint) := by
  constructor
  · unfold nearestRunwayParams
    rcases hll : truthy latitude && truthy longitude
    all_goals rcases hils : truthy ilsfreq
    all_goals rcases hh : hintOk hint
    all_goals simp [hll, hils, hh, List.any_append]
  · rintro (h | h) <;> subst h <;>
      simp [nearestRunwayParams, truthy]

/-- Witness for claim C10 with latitude equal to 0.0 on the equator. -/
theorem nearestRunway_ll_only_when_truthy_witness :
    ((nearestRunwayParams (fun _ _ => "c") 90 (some 0) (some 5) none none).any
        (fun p => p.1 == "ll") = (truthy (some 0) && truthy (some 5)))
    ∧ nearestRunwayParams (fun _ _ => "c") 90 (some 0) (some 5) none none
        = nearestRunwayParams (fun _ _ => "c") 90 none none none none := by
  have h := nearestRunway_ll_only_when_truthy (fun _ _ => "c") 90 (some 0) (some 5)
    none none
  exact ⟨h.1, h.2 (Or.inl rfl)⟩

/-- Claim C3: over each Fast span with in-range bounds, the altitude above
airfield output equals the altitude minus the altitude at the span start
before the peak index, and the altitude minus the altitude at the span
stop index from the peak on; outside every span the output is zero; and the
peak is the first index of maximum altitude within the span. -/
theorem aal_phase_altitudes (alt : List ℚ) (spans : List Span)
    (hv : ∀ s ∈ spans, s.1 < s.2 ∧ s.2 < alt.length)
    (hdisj : ∀ s ∈ spans, ∀ t ∈ spans, ∀ i, inSpan s i → inSpan t i → t = s) :
    ∃ out, aalDerive alt spans = some out
      ∧ out.length = alt.length
      ∧ (∀ i < alt.length, (∀ s ∈ spans, ¬ inSpan s i) → out.getD i 0 = 0)
      ∧ (∀ s ∈ spans, ∀ i, inSpan s i →
          (i < s.1 + spanPeak alt s →
            out.getD i 0 = alt.getD i 0 - alt.getD s.1 0)
          ∧ (s.1 + spanPeak alt s ≤ i →
            out.getD i 0 = alt.getD i 0 - alt.getD s.2 0))
      ∧ (∀ s ∈ spans,
          spanPeak alt s < s.2 - s.1
          ∧ (∀ j, j < s.2 - s.1 →
              alt.getD (s.1 + j) 0 ≤ alt.getD (s.1 + spanPeak alt s) 0)
          ∧ (∀ j, j < spanPeak alt s →
              alt.getD (s.1 + j) 0 < alt.getD (s.1 + spanPeak alt s) 0)) := by
  obtain ⟨f, hf, hout, hin⟩ :=
    foldlM_spans_some (aalSpanUpdate alt) (aalVal alt) spans
      (fun s hs acc => aalSpanUpdate_valid alt s (hv s hs).1 (hv s hs).2 acc)
      (fun _ => 0)
  refine ⟨(List.range alt.length).map f, ?_, by simp, ?_, ?_, ?_⟩
  · unfold aalDerive
    rw [hf]
    rfl
  · intro i hi hnone
    rw [getD_range_map f alt.length i hi, hout i hnone]
  · intro s hs i hiS
    have hlen : i < alt.length := lt_trans hiS.2 (hv s hs).2
    have hval : ((List.range alt.length).map f).getD i 0 = aalVal alt s i := by
      rw [getD_range_map f alt.length i hlen]
      exact hin s hs i hiS (fun t ht hti => hdisj s hs t ht i hiS hti)
    constructor
    · intro hpk
      rw [hval]
      unfold aalVal
      rw [if_pos hpk]
    · intro hpk
      rw [hval]
      unfold aalVal
      rw [if_neg (by omega)]
  · intro s hs
    have h1 := (hv s hs).1
    have h2 := (hv s hs).2
    have hlen : (spanSlice alt s).length = s.2 - s.1 := by
      rw [spanSlice_length]
      omega
    have hne : spanSlice alt s ≠ [] := by
      intro hnil
      rw [hnil] at hlen
      simp at hlen
      omega
    have hpk : spanPeak alt s < s.2 - s.1 := by
      unfold spanPeak
      rw [← hlen]
      exact argmaxIdx_lt_length _ hne
    refine ⟨hpk, ?_, ?_⟩
    · intro j hj
      have hsj : (spanSlice alt s).getD j 0 = alt.getD (s.1 + j) 0 :=
        getD_spanSlice alt s j hj (by omega)
      have hsp : (spanSlice alt s).getD (spanPeak alt s) 0
          = alt.getD (s.1 + spanPeak alt s) 0 :=
        getD_spanSlice alt s _ hpk (by omega)
      rw [← hsj, ← hsp]
      unfold spanPeak
      rw [getD_argmaxIdx _ hne]
      exact getD_le_argmaxVal _ j (by omega)
    · intro j hj
      have hsj : (spanSlice alt s).getD j 0 = alt.getD (s.1 + j) 0 :=
        getD_spanSlice alt s j (by omega) (by omega)
      have hsp : (spanSlice alt s).getD (spanPeak alt s) 0
          = alt.getD (s.1 + spanPeak alt s) 0 :=
        getD_spanSlice alt s _ hpk (by omega)
      rw [← hsj, ← hsp]
      exact getD_lt_of_lt_argmaxIdx _ j hj

/-- Witness for claim C3: a span over a rise and fall succeeds. -/
theorem aal_phase_altitudes_witness :
    ∃ out, aalDerive [0, 10, 20, 10, 0, 0] [(1, 5)] = some out := by
  obtain ⟨out, h1, -⟩ :=
    aal_phase_altitudes [0, 10, 20, 10, 0, 0] [(1, 5)] (by decide)
      (by
        intro s hs t ht i his hit
        rw [List.mem_singleton] at hs ht
        rw [hs, ht])
  exact ⟨out, h1⟩

/-- Claim C4: within each span the climb helper outputs the altitude minus
the tracked floor; the floor is unchanged on a non-decreasing step and reset
to the current altitude on a decreasing step, where the output is zero; and
on the single span altitude sequence 100, 110, 90, 95, 120 the output is
0, 10, 0, 5, 30. -/
theorem climb_floor_tracking (alt : List ℚ) (spans : List Span)
    (hv : ∀ s ∈ spans, s.1 < s.2 ∧ s.2 ≤ alt.length)
    (hdisj : ∀ s ∈ spans, ∀ t ∈ spans, ∀ i, inSpan s i → inSpan t i → t = s) :
    (∃ out, climbDerive alt spans = some out
      ∧ out.length = alt.length
      ∧ (∀ i < alt.length, (∀ s ∈ spans, ¬ inSpan s i) → out.getD i 0 = 0)
      ∧ (∀ s ∈ spans, ∀ k, s.1 + k < s.2 →
          out.getD (s.1 + k) 0
            = (spanSlice alt s).getD k 0 - floorAt (spanSlice alt s) k
          ∧ (spanSlice alt s).getD k 0 = alt.getD (s.1 + k) 0)
      ∧ (∀ s ∈ spans, ∀ k, s.1 + (k + 1) < s.2 →
          (¬ ((spanSlice alt s).getD (k + 1) 0 < (spanSlice alt s).getD k 0) →
            floorAt (spanSlice alt s) (k + 1) = floorAt (spanSlice alt s) k)
          ∧ ((spanSlice alt s).getD (k + 1) 0 < (spanSlice alt s).getD k 0 →
            floorAt (spanSlice alt s) (k + 1) = (spanSlice alt s).getD (k + 1) 0
            ∧ out.getD (s.1 + (k + 1)) 0 = 0)))
    ∧ climbDerive [100, 110, 90, 95, 120] [(0, 5)] = some [0, 10, 0, 5, 30] := by
  constructor
  · obtain ⟨f, hf, hout, hin⟩ :=
      foldlM_spans_some (climbSpanUpdate alt) (climbVal alt) spans
        (fun s hs acc => climbSpanUpdate_valid alt s (hv s hs).1 (hv s hs).2 acc)
        (fun _ => 0)
    have hmain : ∀ s ∈ spans, ∀ k, s.1 + k < s.2 →
        ((List.range alt.length).map f).getD (s.1 + k) 0
          = (spanSlice alt s).getD k 0 - floorAt (spanSlice alt s) k := by
      intro s hs k hk
      have h1 := (hv s hs).1
      have h2 := (hv s hs).2
      have hiS : inSpan s (s.1 + k) := ⟨by omega, hk⟩
      have hlen : s.1 + k < alt.length := by omega
      have hslen : (spanSlice alt s).length = s.2 - s.1 := by
        rw [spanSlice_length]
        omega
      rw [getD_range_map f alt.length _ hlen,
        hin s hs _ hiS (fun t ht hti => hdisj s hs t ht _ hiS hti)]
      unfold climbVal
      have hsub : s.1 + k - s.1 = k := by omega
      rw [hsub, climbOut_getD _ k (by omega)]
    refine ⟨(List.range alt.length).map f, ?_, by simp, ?_, ?_, ?_⟩
    · unfold climbDerive
      rw [hf]
      rfl
    · intro i hi hnone
      rw [getD_range_map f alt.length i hi, hout i hnone]
    · intro s hs k hk
      refine ⟨hmain s hs k hk, ?_⟩
      have h2 := (hv s hs).2
      exact getD_spanSlice alt s k (by omega) (by omega)
    · intro s hs k hk
      constructor
      · intro hnd
        simp only [floorAt]
        rw [if_neg hnd]
      · intro hd
        have hfl : floorAt (spanSlice alt s) (k + 1)
            = (spanSlice alt s).getD (k + 1) 0 := by
          simp only [floorAt]
          rw [if_pos hd]
        refine ⟨hfl, ?_⟩
        rw [hmain s hs (k + 1) hk, hfl, sub_self]
  · simp only [climbDerive, List.foldlM_cons, List.foldlM_nil, climbSpanUpdate,
      spanSlice]
    norm_num [climbOut, climbVals, List.range_succ, List.getD, List.take, List.drop]

/-- Witness for claim C4: the end-to-end example span. -/
theorem climb_floor_tracking_witness :
    climbDerive [100, 110, 90, 95, 120] [(0, 5)] = some [0, 10, 0, 5, 30] :=
  (climb_floor_tracking [100, 110, 90, 95, 120] [(0, 5)] (by decide)
    (by
      intro s hs t ht i his hit
      rw [List.mem_singleton] at hs ht
      rw [hs, ht])).2

/-- Claim C9: the after-peak write of AltitudeAALForFlightPhases.derive
reads the altitude at the exclusive stop index of the span; for a nonempty
span whose stop equals the array length that read is out of bounds and the
whole derivation errors out. -/
theorem aal_stop_out_of_bounds (alt : List ℚ) (spans : List Span) (b e : ℕ)
    (hmem : (b, e) ∈ spans) (hbe : b < e) (hstop : e = alt.length) :
    alt[e]? = none ∧ aalDerive alt spans = none := by
  have hoob : alt[e]? = none := List.getElem?_eq_none (by omega)
  refine ⟨hoob, ?_⟩
  have hnone : ∀ acc, aalSpanUpdate alt acc (b, e) = none := by
    intro acc
    have hlen : (spanSlice alt (b, e)).length = e - b := by
      rw [spanSlice_length]
      simp only
      omega
    have hne : ¬ ((spanSlice alt (b, e)).isEmpty = true) := by
      rw [List.isEmpty_iff_length_eq_zero, hlen]
      omega
    unfold aalSpanUpdate
    rw [if_neg hne]
    have hsnd : ((b, e) : Span).2 = e := rfl
    rw [hsnd, hoob]
  unfold aalDerive
  rw [foldlM_spans_none (aalSpanUpdate alt) spans (b, e) hmem hnone (fun _ => 0)]
  rfl

/-- Witness for claim C9: a two sample record with a span stopping at the
array length. -/
theorem aal_stop_out_of_bounds_witness :
    ([0, 1] : List ℚ)[2]? = none ∧ aalDerive [0, 1] [(0, 2)] = none :=
  aal_stop_out_of_bounds [0, 1] [(0, 2)] 0 2 (by decide) (by decide) (by decide)

/-- Claim C8: every lookup on AnalysisEngineAPIHandlerDummy surfaces the not
found condition as the typed NotFoundError value, never as a returned
result. -/
theorem dummyHandler_always_notFound (code airport : String) (heading : ℤ)
    (latitude longitude : ℚ) (lat lon ils : Option ℚ) (hint : Option String) :
    dummyGetAirport code
        = Except.error (ApiError.NotFoundError "Dummy API handler always returns nothing...")
    ∧ dummyGetNearestAirport latitude longitude
        = Except.error (ApiError.NotFoundError "Dummy API handler always returns nothing...")
    ∧ dummyGetNearestRunway airport heading lat lon ils hint
        = Except.error (ApiError.NotFoundError "Dummy API handler always returns nothing...") := by
  exact ⟨rfl, rfl, rfl⟩

end FlightData
